import Mathlib

/-!
Verification of the workflow-simulator core (src/js/stateMachine.js,
src/js/asyncQueue.js) via a shallow embedding in Lean.

States, task ids, priorities and history actions are JavaScript strings,
so they are embedded as `String`.  The transition-rule object
`STATE_RULES` is a partial map from state name to allowed-successor
list; an absent key (JavaScript `undefined` on lookup) is embedded as
`Option.none`.  The `lockedTasks` JavaScript `Set` is a `Finset String`.
Randomness (`Math.random`) is embedded by passing the drawn outcome as
an explicit parameter, and `Date.now()` as an explicit clock value.
-/

namespace WorkflowSim

/-- One entry of a task's `history` array: `{action, timestamp}`. -/
structure HistoryEntry where
  action : String
  timestamp : Nat
deriving DecidableEq

/-- A task object as created by app.js and mutated by the engine. -/
structure Task where
  id : String
  title : String
  priority : String
  state : String
  history : List HistoryEntry
  createdAt : Nat
deriving DecidableEq

/-- The transition table of stateMachine.js (`STATE_RULES`).  Lookup of a
key that is absent from the object yields `none` (JavaScript
`undefined`). -/
def STATE_RULES : String → Option (List String)
  | "DRAFT" => some ["SUBMITTED"]
  | "SUBMITTED" => some ["IN_REVIEW"]
  | "IN_REVIEW" => some ["APPROVED", "REJECTED"]
  | "APPROVED" => some ["COMPLETED"]
  | "COMPLETED" => some []
  | "REJECTED" => some ["DRAFT"]
  | _ => none

/-- `WorkflowEngine.getNextStates`: `STATE_RULES[currentState] || []`.
An array is always truthy in JavaScript (even `[]`), so the fallback is
taken exactly when the lookup is `undefined`. -/
def getNextStates (currentState : String) : List String :=
  (STATE_RULES currentState).getD []

/-- `WorkflowEngine.canTransition`:
`const allowed = STATE_RULES[currentParams]; return allowed && allowed.includes(targetState)`.
JavaScript `&&` returns its first operand when that operand is falsy, so
when `currentParams` is not a key the function returns `undefined`
(embedded as `none`); otherwise `allowed` is an array, always truthy,
and the function returns the boolean `allowed.includes(targetState)`
(embedded as `some`). -/
def canTransition (currentParams targetState : String) : Option Bool :=
  match STATE_RULES currentParams with
  | some allowed => some (allowed.contains targetState)
  | none => none

/-- Truthiness of a JavaScript value that is either `undefined` or a
boolean: `undefined` is falsy. -/
def jsTruthy : Option Bool → Bool
  | none => false
  | some b => b

/-- The persisted blob of AppStorage: `{tasks: [...], logs: [...]}`.
Nothing in the core ever puts anything into `logs`, so its element type
is left as `String`. -/
structure Blob where
  tasks : List Task
  logs : List String
deriving DecidableEq

/-- `AppStorage.load`: `raw ? JSON.parse(raw) : { tasks: [], logs: [] }`.
The content of localStorage under the key is embedded as an
`Option Blob` (`none` when nothing has ever been saved). -/
def load (stored : Option Blob) : Blob :=
  stored.getD { tasks := [], logs := [] }

/-- The pure list update inside `AppStorage.updateTask`:
`findIndex` by id, then replace in place if found, else `push`. -/
def updateTaskList (tasks : List Task) (updatedTask : Task) : List Task :=
  match tasks.findIdx? (fun t => t.id == updatedTask.id) with
  | some index => tasks.set index updatedTask
  | none => tasks ++ [updatedTask]

/-- `AppStorage.updateTask`: load, modify the task list, save the whole
blob, return the task that was passed in.  The result pairs the blob
that `save` writes back with the returned value. -/
def updateTask (stored : Option Blob) (updatedTask : Task) : Blob × Task :=
  let data := load stored
  ({ data with tasks := updateTaskList data.tasks updatedTask }, updatedTask)

/-- What `WorkflowEngine.transitionTaskAsync` settles its promise with:
the locked rejection, the simulated network-error rejection, or the
resolution with a task. -/
inductive TransitionOutcome where
  | lockedError (taskId : String)
  | networkError
  | success (task : Task)
deriving DecidableEq

/-- The complete observable effect of one `transitionTaskAsync` call:
the lock set afterwards, the settled outcome, the task object after the
call (mutated only on success), and whether the call scheduled the
simulated network delay (`setTimeout`) before settling. -/
structure TransitionResult where
  lockedTasks : Finset String
  outcome : TransitionOutcome
  task : Task
  delayed : Bool
deriving DecidableEq

/-- `WorkflowEngine.transitionTaskAsync(task, targetState)` over an
explicit lock set.  The Bernoulli draw `Math.random() < 0.15` is the
parameter `shouldFail`, and `Date.now()` at settlement is `now`.  The
locked rejection happens synchronously, before the `setTimeout`
(`delayed = false`); both other paths settle from inside the timeout
callback.  Note that the body never consults `STATE_RULES`: legality of
the target is not checked on any path. -/
def transitionTaskAsync (locked : Finset String) (task : Task)
    (targetState : String) (shouldFail : Bool) (now : Nat) :
    TransitionResult :=
  if task.id ∈ locked then
    { lockedTasks := locked, outcome := .lockedError task.id,
      task := task, delayed := false }
  else
    let locked1 := insert task.id locked
    if shouldFail then
      { lockedTasks := locked1.erase task.id, outcome := .networkError,
        task := task, delayed := true }
    else
      let task1 : Task :=
        { task with state := targetState,
                    history := task.history ++
                      [{ action := "MOVED_TO_" ++ targetState, timestamp := now }] }
      { lockedTasks := locked1.erase task.id, outcome := .success task1,
        task := task1, delayed := true }

/-- One scheduled call of `transitionTaskAsync` on a single task: the
requested target, the drawn failure outcome, and the clock value. -/
structure Call where
  target : String
  shouldFail : Bool
  now : Nat
deriving DecidableEq

/-- Run a sequence of `transitionTaskAsync` calls on one task, threading
the task object and the lock set through. -/
def runCalls : Task → Finset String → List Call → Task × Finset String
  | task, locked, [] => (task, locked)
  | task, locked, c :: rest =>
      let r := transitionTaskAsync locked task c.target c.shouldFail c.now
      runCalls r.task r.lockedTasks rest

/-- A call sequence is table-respecting when every call requests a
target that `getNextStates` offers for the task's state at that moment —
exactly the calls a caller that only follows the UI affordances built
from `getNextStates` can make. -/
def tableRespecting : Task → Finset String → List Call → Prop
  | _, _, [] => True
  | task, locked, c :: rest =>
      c.target ∈ getNextStates task.state ∧
      tableRespecting (transitionTaskAsync locked task c.target c.shouldFail c.now).task
        (transitionTaskAsync locked task c.target c.shouldFail c.now).lockedTasks rest

/-- A concrete task sitting in the terminal state. -/
def completedTask : Task :=
  { id := "done1", title := "Done task", priority := "HIGH",
    state := "COMPLETED", history := [], createdAt := 0 }

/-- A concrete freshly created task (state DRAFT, empty history), as
app.js creates them. -/
def task0 : Task :=
  { id := "1", title := "Demo task", priority := "LOW",
    state := "DRAFT", history := [], createdAt := 0 }

/-- A queued job of asyncQueue.js: `{fn, desc}`.  The closure `fn` is
identified by the order in which it was enqueued (`jid`), since the
model runs jobs by scheduling their completion events. -/
structure Job where
  jid : Nat
  desc : String
deriving DecidableEq

/-- Observable events of a queue run, in chronological order:
a job was appended to the backlog, a job's `fn` was invoked
(`await job.fn()` began), a job's promise settled (the `finally` block
ran). -/
inductive QEvent where
  | enqueued (jid : Nat)
  | started (jid : Nat)
  | finished (jid : Nat)
deriving DecidableEq

/-- The state of an `AsyncQueue` instance together with the event trace
so far.  `running` is the jid of the job currently suspended at
`await job.fn()`, if any; `nextId` numbers the jobs in enqueue order. -/
structure QState where
  queue : List Job
  isProcessing : Bool
  running : Option Nat
  trace : List QEvent
  nextId : Nat

/-- The queue as constructed: empty backlog, idle. -/
def initQ : QState :=
  { queue := [], isProcessing := false, running := none, trace := [], nextId := 0 }

/-- The synchronous prefix of `AsyncQueue.processNext`, up to the point
where it suspends at `await job.fn()`: return if already busy or the
backlog is empty; otherwise set `isProcessing`, shift the front job and
start running it.  (The `updateUI` calls touch only the DOM and carry no
queue state.) -/
def processNext (s : QState) : QState :=
  if s.isProcessing then s
  else
    match s.queue with
    | [] => s
    | job :: rest =>
        { s with isProcessing := true, queue := rest,
                 running := some job.jid,
                 trace := s.trace ++ [.started job.jid] }

/-- `AsyncQueue.enqueue(taskFn, description)`: push `{fn, desc}` onto
the backlog, then call `processNext`. -/
def enqueue (s : QState) (desc : String) : QState :=
  processNext
    { s with queue := s.queue ++ [{ jid := s.nextId, desc := desc }],
             nextId := s.nextId + 1,
             trace := s.trace ++ [.enqueued s.nextId] }

/-- The running job's promise settles (fulfilled or rejected — the
`catch` swallows a rejection either way): the `finally` block clears
`isProcessing` and calls `processNext` again.  With nothing running this
event cannot occur and is a no-op. -/
def complete (s : QState) : QState :=
  match s.running with
  | none => s
  | some jid =>
      processNext
        { s with isProcessing := false, running := none,
                 trace := s.trace ++ [.finished jid] }

/-- An external stimulus to the queue: some caller enqueues a unit, or
the currently running unit's internal asynchronous work settles.  A
schedule (list of commands) fixes one interleaving of callers and unit
latencies; quantifying over all schedules covers every such
interleaving. -/
inductive QCmd where
  | enq (desc : String)
  | settle
deriving DecidableEq

/-- Run a schedule against a queue state. -/
def runQ (s : QState) : List QCmd → QState
  | [] => s
  | QCmd.enq d :: rest => runQ (enqueue s d) rest
  | QCmd.settle :: rest => runQ (complete s) rest

/-- Is this event a start or finish of a unit's execution? -/
def isExec : QEvent → Bool
  | .started _ => true
  | .finished _ => true
  | .enqueued _ => false

/-- Is this event an enqueue? -/
def isEnq : QEvent → Bool
  | .enqueued _ => true
  | _ => false

/-- The execution events of a trace, in order. -/
def execEvents (tr : List QEvent) : List QEvent := tr.filter isExec

/-- The enqueue events of a trace, in order. -/
def enqEvents (tr : List QEvent) : List QEvent := tr.filter isEnq

/-- The only execution-event sequences a serial FIFO queue can produce:
jobs 0, 1, ..., k-1 each started and finished, in order and
non-overlapping, optionally followed by the start of job k that is still
running. -/
def execShape (k : Nat) (runningLast : Bool) : List QEvent :=
  ((List.range k).flatMap fun i => [QEvent.started i, QEvent.finished i]) ++
    (if runningLast then [QEvent.started k] else [])

/-- Invariant tying an `AsyncQueue` state to its trace: either the queue
is idle with an empty backlog and every enqueued job fully executed, or
exactly one job `k` is mid-execution and the backlog holds jobs
`k+1, ..., nextId-1` in enqueue order. -/
def QInv (s : QState) : Prop :=
  enqEvents s.trace = (List.range s.nextId).map QEvent.enqueued ∧
  ((s.isProcessing = false ∧ s.running = none ∧ s.queue = [] ∧
      execEvents s.trace = execShape s.nextId false) ∨
   (∃ k, s.isProcessing = true ∧ s.running = some k ∧ k + 1 ≤ s.nextId ∧
      s.queue.map Job.jid = List.range' (k + 1) (s.nextId - (k + 1)) ∧
      execEvents s.trace = execShape k true))

/-- A `findIdx?` hit is the same thing as the existence of a matching
element. -/
theorem findIdx?_isSome_iff_exists {α : Type} (p : α → Bool) (l : List α) :
    (l.findIdx? p).isSome = true ↔ ∃ x ∈ l, p x = true := by
  induction l with
  | nil => simp [List.findIdx?]
  | cons a l ih =>
      by_cases h : p a = true
      · simp [List.findIdx?, h]
      · simp [List.findIdx?, h, ih]

/-- C7: for every state `s`, `getNextStates s` equals exactly the
transition table's entry for `s` — DRAFT ↦ [SUBMITTED], SUBMITTED ↦
[IN_REVIEW], IN_REVIEW ↦ [APPROVED, REJECTED], APPROVED ↦ [COMPLETED],
REJECTED ↦ [DRAFT] — and is empty for COMPLETED and for any state that
is not a key of the table.  (`getNextStates` is a total pure function of
its argument, so it has no side effects and never fails.) -/
theorem getNextStates_matches_table :
    getNextStates "DRAFT" = ["SUBMITTED"] ∧
    getNextStates "SUBMITTED" = ["IN_REVIEW"] ∧
    getNextStates "IN_REVIEW" = ["APPROVED", "REJECTED"] ∧
    getNextStates "APPROVED" = ["COMPLETED"] ∧
    getNextStates "COMPLETED" = [] ∧
    getNextStates "REJECTED" = ["DRAFT"] ∧
    ∀ s, STATE_RULES s = none → getNextStates s = [] := by
  refine ⟨rfl, rfl, rfl, rfl, rfl, rfl, ?_⟩
  intro s hs
  simp [getNextStates, hs]

/-- Witness for C7 at the concrete non-key state "PENDING". -/
theorem getNextStates_matches_table_witness :
    getNextStates "PENDING" = [] :=
  getNextStates_matches_table.2.2.2.2.2.2 "PENDING" rfl

/-- C9 counterexample: for the non-key from-state "NOT_A_STATE",
`canTransition` does not return the boolean `false` (nor `true`): it
returns JavaScript `undefined` (embedded as `none`), because
`allowed && allowed.includes(...)` short-circuits on the `undefined`
lookup result. -/
theorem canTransition_unknown_counterexample :
    canTransition "NOT_A_STATE" "DRAFT" = none ∧
    canTransition "NOT_A_STATE" "DRAFT" ≠ some false ∧
    canTransition "NOT_A_STATE" "DRAFT" ≠ some true := by
  refine ⟨rfl, ?_, ?_⟩ <;> decide

/-- C9 (amended): `canTransition fromState toState` returns the boolean
membership test `allowed.includes(toState)` whenever `fromState` is a
key of the transition table; when `fromState` is not a key it returns
`undefined`, which is falsy but not the boolean `false`; in every case
its truthiness is true exactly when `toState` is a member of the table's
entry for `fromState`. -/
theorem canTransition_spec (fromState toState : String) :
    (∀ allowed, STATE_RULES fromState = some allowed →
        canTransition fromState toState = some (allowed.contains toState)) ∧
    (STATE_RULES fromState = none → canTransition fromState toState = none) ∧
    (jsTruthy (canTransition fromState toState) = true ↔
        ∃ allowed, STATE_RULES fromState = some allowed ∧ toState ∈ allowed) := by
  refine ⟨?_, ?_, ?_⟩
  · intro allowed h
    simp [canTransition, h]
  · intro h
    simp [canTransition, h]
  · cases h : STATE_RULES fromState with
    | none => simp [canTransition, h, jsTruthy]
    | some allowed => simp [canTransition, h, jsTruthy]

/-- Witness for C9's amended theorem at a concrete key of the table. -/
theorem canTransition_spec_witness :
    canTransition "DRAFT" "SUBMITTED" = some true := by
  simpa using (canTransition_spec "DRAFT" "SUBMITTED").1 ["SUBMITTED"] rfl

/-- C10: when nothing has ever been saved under the storage key,
`load` resolves to the default structure: `tasks` is the empty list and
the default additionally carries a `logs` field holding the empty
list. -/
theorem load_default_spec :
    (load none).tasks = [] ∧ (load none).logs = [] :=
  ⟨rfl, rfl⟩

/-- C6: `updateTask` returns the task passed in and saves the whole
collection (the `logs` field of the loaded blob is written back
unchanged); when some stored task has the same id — equivalently, when
the `findIndex` scan hits at index `i` — the stored list is replaced in
place at `i` and its length is unchanged; otherwise the task is appended
and the length grows by exactly one. -/
theorem updateTask_spec (stored : Option Blob) (u : Task) :
    (updateTask stored u).2 = u ∧
    (updateTask stored u).1.logs = (load stored).logs ∧
    (∀ i, (load stored).tasks.findIdx? (fun t => t.id == u.id) = some i →
        (updateTask stored u).1.tasks = (load stored).tasks.set i u ∧
        (updateTask stored u).1.tasks.length = (load stored).tasks.length) ∧
    ((load stored).tasks.findIdx? (fun t => t.id == u.id) = none →
        (updateTask stored u).1.tasks = (load stored).tasks ++ [u] ∧
        (updateTask stored u).1.tasks.length = (load stored).tasks.length + 1) ∧
    ((∃ t ∈ (load stored).tasks, t.id = u.id) ↔
        ((load stored).tasks.findIdx? (fun t => t.id == u.id)).isSome = true) := by
  refine ⟨rfl, rfl, ?_, ?_, ?_⟩
  · intro i hi
    constructor
    · simp [updateTask, updateTaskList, hi]
    · simp [updateTask, updateTaskList, hi]
  · intro h
    constructor
    · simp [updateTask, updateTaskList, h]
    · simp [updateTask, updateTaskList, h]
  · rw [findIdx?_isSome_iff_exists]
    simp

/-- A stored blob holding just `task0`, and an updated version of
`task0` with the same id. -/
def blob0 : Blob := { tasks := [task0], logs := [] }

/-- The same task as `task0` with a changed title (the id is shared). -/
def task0v2 : Task := { task0 with title := "Demo task v2" }

/-- Witness for C6: updating a stored task by id replaces it in place
and preserves the list length. -/
theorem updateTask_spec_witness :
    (updateTask (some blob0) task0v2).1.tasks =
      (load (some blob0)).tasks.set 0 task0v2 ∧
    (updateTask (some blob0) task0v2).1.tasks.length =
      (load (some blob0)).tasks.length :=
  (updateTask_spec (some blob0) task0v2).2.2.1 0 rfl

/-- C1: when `transitionTaskAsync` resolves successfully (the task was
not locked and the Bernoulli draw did not fail), the task's state equals
the target state, exactly one new record with action
`"MOVED_TO_" ++ target` has been appended to its history (the history
grows by exactly one entry), and the resolved value is the mutated
task. -/
theorem transitionTaskAsync_success_spec (locked : Finset String)
    (task : Task) (targetState : String) (now : Nat)
    (h : task.id ∉ locked) :
    (transitionTaskAsync locked task targetState false now).task.state = targetState ∧
    (transitionTaskAsync locked task targetState false now).task.history =
      task.history ++ [{ action := "MOVED_TO_" ++ targetState, timestamp := now }] ∧
    (transitionTaskAsync locked task targetState false now).task.history.length =
      task.history.length + 1 ∧
    (transitionTaskAsync locked task targetState false now).outcome =
      TransitionOutcome.success
        (transitionTaskAsync locked task targetState false now).task := by
  simp [transitionTaskAsync, h]

/-- Witness for C1: a successful move of a fresh DRAFT task to
SUBMITTED. -/
theorem transitionTaskAsync_success_spec_witness :
    (transitionTaskAsync ∅ task0 "SUBMITTED" false 5).task.state = "SUBMITTED" ∧
    (transitionTaskAsync ∅ task0 "SUBMITTED" false 5).task.history =
      task0.history ++ [{ action := "MOVED_TO_" ++ "SUBMITTED", timestamp := 5 }] ∧
    (transitionTaskAsync ∅ task0 "SUBMITTED" false 5).task.history.length =
      task0.history.length + 1 ∧
    (transitionTaskAsync ∅ task0 "SUBMITTED" false 5).outcome =
      TransitionOutcome.success (transitionTaskAsync ∅ task0 "SUBMITTED" false 5).task :=
  transitionTaskAsync_success_spec ∅ task0 "SUBMITTED" 5 (by simp)

/-- C2: when `transitionTaskAsync` fails on the simulated-fault path
(the task was not locked and the Bernoulli draw failed), the task's
state and history are identical to their pre-call values — in fact the
whole task object is unmodified — and the promise rejects with the
network error. -/
theorem transitionTaskAsync_failure_spec (locked : Finset String)
    (task : Task) (targetState : String) (now : Nat)
    (h : task.id ∉ locked) :
    (transitionTaskAsync locked task targetState true now).task.state = task.state ∧
    (transitionTaskAsync locked task targetState true now).task.history = task.history ∧
    (transitionTaskAsync locked task targetState true now).task = task ∧
    (transitionTaskAsync locked task targetState true now).outcome =
      TransitionOutcome.networkError := by
  simp [transitionTaskAsync, h]

/-- Witness for C2: a simulated-fault attempt on a fresh DRAFT task. -/
theorem transitionTaskAsync_failure_spec_witness :
    (transitionTaskAsync ∅ task0 "SUBMITTED" true 5).task.state = task0.state ∧
    (transitionTaskAsync ∅ task0 "SUBMITTED" true 5).task.history = task0.history ∧
    (transitionTaskAsync ∅ task0 "SUBMITTED" true 5).task = task0 ∧
    (transitionTaskAsync ∅ task0 "SUBMITTED" true 5).outcome =
      TransitionOutcome.networkError :=
  transitionTaskAsync_failure_spec ∅ task0 "SUBMITTED" 5 (by simp)

/-- C3: for a task whose id is not locked when `transitionTaskAsync` is
called, the id is absent from the lock set after the attempt settles, on
the success path as well as on the simulated-failure path: no attempt
leaks a lock. -/
theorem transitionTaskAsync_releases_lock (locked : Finset String)
    (task : Task) (targetState : String) (shouldFail : Bool) (now : Nat)
    (h : task.id ∉ locked) :
    task.id ∉ (transitionTaskAsync locked task targetState shouldFail now).lockedTasks := by
  cases shouldFail <;> simp [transitionTaskAsync, h]

/-- Witness for C3 on the success path at a concrete task. -/
theorem transitionTaskAsync_releases_lock_witness :
    task0.id ∉ (transitionTaskAsync ∅ task0 "SUBMITTED" false 5).lockedTasks :=
  transitionTaskAsync_releases_lock ∅ task0 "SUBMITTED" false 5 (by simp)

/-- C4: for a task whose id is in the lock set, `transitionTaskAsync`
fails with the locked error before any simulated latency is scheduled
(`delayed = false`; the rejection happens synchronously, before the
`setTimeout`, and the definition of `transitionTaskAsync` consults
`STATE_RULES` on no path), and it alters neither the task's fields nor
the lock set. -/
theorem transitionTaskAsync_locked_spec (locked : Finset String)
    (task : Task) (targetState : String) (shouldFail : Bool) (now : Nat)
    (h : task.id ∈ locked) :
    (transitionTaskAsync locked task targetState shouldFail now).outcome =
      TransitionOutcome.lockedError task.id ∧
    (transitionTaskAsync locked task targetState shouldFail now).task = task ∧
    (transitionTaskAsync locked task targetState shouldFail now).lockedTasks = locked ∧
    (transitionTaskAsync locked task targetState shouldFail now).delayed = false := by
  simp [transitionTaskAsync, h]

/-- Witness for C4: an attempt on a task whose id is already locked. -/
theorem transitionTaskAsync_locked_spec_witness :
    (transitionTaskAsync {"1"} task0 "SUBMITTED" false 5).outcome =
      TransitionOutcome.lockedError task0.id ∧
    (transitionTaskAsync {"1"} task0 "SUBMITTED" false 5).task = task0 ∧
    (transitionTaskAsync {"1"} task0 "SUBMITTED" false 5).lockedTasks = {"1"} ∧
    (transitionTaskAsync {"1"} task0 "SUBMITTED" false 5).delayed = false :=
  transitionTaskAsync_locked_spec {"1"} task0 "SUBMITTED" false 5 (by simp [task0])

/-- C8 counterexample: `transitionTaskAsync` is an operation of the core
that does change a COMPLETED task's state.  It never consults the
transition table, so on a successful draw it moves the COMPLETED task
`completedTask` to "DRAFT". -/
theorem completed_left_by_illegal_attempt :
    completedTask.state = "COMPLETED" ∧
    (transitionTaskAsync ∅ completedTask "DRAFT" false 0).task.state = "DRAFT" ∧
    (transitionTaskAsync ∅ completedTask "DRAFT" false 0).outcome =
      TransitionOutcome.success (transitionTaskAsync ∅ completedTask "DRAFT" false 0).task := by
  refine ⟨rfl, ?_, ?_⟩ <;> simp [transitionTaskAsync, completedTask]

/-- C8 (amended): along every table-respecting sequence of
`transitionTaskAsync` calls — every call's target drawn from
`getNextStates` of the task's current state, which is all the core ever
offers — a task that has reached COMPLETED still has state COMPLETED
afterwards: `getNextStates "COMPLETED"` is empty, so no such call
exists.  (The engine itself does not reject an illegal target, so an
attempt with a target outside the table can leave COMPLETED.) -/
theorem completed_stays_completed (task : Task) (locked : Finset String)
    (calls : List Call) (hstate : task.state = "COMPLETED")
    (hlegal : tableRespecting task locked calls) :
    (runCalls task locked calls).1.state = "COMPLETED" := by
  cases calls with
  | nil => simpa [runCalls] using hstate
  | cons c rest =>
      exfalso
      have hmem := hlegal.1
      rw [hstate] at hmem
      have hnil : getNextStates "COMPLETED" = [] := rfl
      rw [hnil] at hmem
      simp at hmem

/-- Witness for C8's amended theorem: the only table-respecting call
sequence from a COMPLETED task is the empty one, along which the state
stays COMPLETED. -/
theorem completed_stays_completed_witness :
    (runCalls completedTask ∅ []).1.state = "COMPLETED" :=
  completed_stays_completed completedTask ∅ [] rfl trivial

/-- Starting a run extends a fully-executed shape. -/
theorem execShape_push_started (k : Nat) :
    execShape k false ++ [QEvent.started k] = execShape k true := by
  simp [execShape]

/-- Finishing the running job closes the shape. -/
theorem execShape_push_finished (k : Nat) :
    execShape k true ++ [QEvent.finished k] = execShape (k + 1) false := by
  simp [execShape, List.range_succ, List.flatMap_append]

/-- The queue invariant holds of the freshly constructed queue. -/
theorem QInv_initQ : QInv initQ := by
  constructor
  · simp [initQ, enqEvents]
  · left
    refine ⟨rfl, rfl, rfl, ?_⟩
    simp [initQ, execEvents, execShape]

/-- `enqueue` preserves the queue invariant. -/
theorem QInv_enqueue (s : QState) (d : String) (h : QInv s) :
    QInv (enqueue s d) := by
  obtain ⟨henq, hrest⟩ := h
  simp only [enqEvents] at henq
  rcases hrest with ⟨hp, hr, hq, hexec⟩ | ⟨k, hp, hr, hk, hq, hexec⟩
  · -- idle queue: the new job starts running immediately
    simp only [execEvents] at hexec
    have hstep : enqueue s d = { s with
        queue := [], isProcessing := true, running := some s.nextId,
        nextId := s.nextId + 1,
        trace := (s.trace ++ [QEvent.enqueued s.nextId]) ++
          [QEvent.started s.nextId] } := by
      simp [enqueue, processNext, hp, hq]
    rw [hstep]
    constructor
    · simp [enqEvents, List.filter_append, isEnq, List.range_succ, henq]
    · right
      refine ⟨s.nextId, rfl, rfl, Nat.le_refl _, ?_, ?_⟩
      · simp
      · simp [execEvents, List.filter_append, isExec, hexec,
              execShape_push_started]
  · -- busy queue: the new job just joins the backlog
    simp only [execEvents] at hexec
    have hstep : enqueue s d = { s with
        queue := s.queue ++ [{ jid := s.nextId, desc := d }],
        nextId := s.nextId + 1,
        trace := s.trace ++ [QEvent.enqueued s.nextId] } := by
      simp [enqueue, processNext, hp]
    rw [hstep]
    constructor
    · simp [enqEvents, List.filter_append, isEnq, List.range_succ, henq]
    · right
      refine ⟨k, hp, hr, (show k + 1 ≤ s.nextId + 1 by omega), ?_, ?_⟩
      · have hm : s.nextId + 1 - (k + 1) = (s.nextId - (k + 1)) + 1 := by omega
        have hsum : (k + 1) + (s.nextId - (k + 1)) = s.nextId := by omega
        rw [hm, List.range'_1_concat, hsum]
        simp [hq]
      · simp [execEvents, List.filter_append, isExec, hexec]

/-- `complete` preserves the queue invariant. -/
theorem QInv_complete (s : QState) (h : QInv s) : QInv (complete s) := by
  obtain ⟨henq, hrest⟩ := h
  rcases hrest with ⟨hp, hr, hq, hexec⟩ | ⟨k, hp, hr, hk, hq, hexec⟩
  · -- idle: nothing is running, the event is a no-op
    have hstep : complete s = s := by simp [complete, hr]
    rw [hstep]
    exact ⟨henq, Or.inl ⟨hp, hr, hq, hexec⟩⟩
  · -- busy: job k finishes; the next backlog job (if any) starts
    simp only [enqEvents] at henq
    simp only [execEvents] at hexec
    cases hqe : s.queue with
    | nil =>
        rw [hqe] at hq
        simp only [List.map_nil] at hq
        have hm : s.nextId - (k + 1) = 0 := by
          by_contra hne
          obtain ⟨mm, hmm⟩ : ∃ mm, s.nextId - (k + 1) = mm + 1 :=
            ⟨s.nextId - (k + 1) - 1, by omega⟩
          rw [hmm, List.range'_succ] at hq
          exact List.noConfusion hq
        have hn : s.nextId = k + 1 := by omega
        have hstep : complete s = { s with
            isProcessing := false, running := none,
            trace := s.trace ++ [QEvent.finished k] } := by
          simp [complete, hr, processNext, hqe]
        rw [hstep]
        constructor
        · simp [enqEvents, List.filter_append, isEnq, henq]
        · left
          refine ⟨rfl, rfl, hqe, ?_⟩
          simp [execEvents, List.filter_append, isExec, hexec, hn,
                execShape_push_finished]
    | cons j rest =>
        rw [hqe] at hq
        simp only [List.map_cons] at hq
        obtain ⟨mm, hmm⟩ : ∃ mm, s.nextId - (k + 1) = mm + 1 := by
          cases hmq : s.nextId - (k + 1) with
          | zero => rw [hmq, List.range'_zero] at hq; exact List.noConfusion hq
          | succ mmm => exact ⟨mmm, rfl⟩
        rw [hmm, List.range'_succ] at hq
        injection hq with hjid hrest2
        have hstep : complete s = { s with
            isProcessing := true, running := some j.jid, queue := rest,
            trace := (s.trace ++ [QEvent.finished k]) ++
              [QEvent.started j.jid] } := by
          simp [complete, hr, processNext, hqe]
        rw [hstep]
        constructor
        · simp [enqEvents, List.filter_append, isEnq, henq]
        · right
          refine ⟨j.jid, rfl, rfl, (show j.jid + 1 ≤ s.nextId by omega), ?_, ?_⟩
          · show List.map Job.jid rest =
              List.range' (j.jid + 1) (s.nextId - (j.jid + 1))
            rw [hjid]
            have hm2 : s.nextId - (k + 1 + 1) = mm := by omega
            rw [hm2]
            exact hrest2
          · show List.filter isExec
                ((s.trace ++ [QEvent.finished k]) ++ [QEvent.started j.jid]) =
              execShape j.jid true
            rw [hjid]
            have h1 : List.filter isExec [QEvent.finished k] =
              [QEvent.finished k] := rfl
            have h2 : List.filter isExec [QEvent.started (k + 1)] =
              [QEvent.started (k + 1)] := rfl
            rw [List.filter_append, List.filter_append, hexec, h1, h2,
                execShape_push_finished, execShape_push_started]

/-- Any schedule preserves the queue invariant. -/
theorem QInv_runQ (s : QState) (cmds : List QCmd) (h : QInv s) :
    QInv (runQ s cmds) := by
  induction cmds generalizing s with
  | nil => exact h
  | cons c rest ih =>
      cases c with
      | enq d => exact ih _ (QInv_enqueue s d h)
      | settle => exact ih _ (QInv_complete s h)

/-- C5: for every schedule of enqueues and unit settlements, the
enqueued units execute strictly in enqueue (FIFO) order and never
overlap.  The enqueue events of the run's trace are `enqueued 0, ...,
enqueued n-1` in order, and the execution events are exactly
`started 0, finished 0, started 1, finished 1, ...`: either jobs
`0..k-1` (with `k ≤ n`) each ran to completion before the next began, or
additionally job `k < n` has started and not yet finished — so at most
one unit runs at a time and no unit begins before the previously started
unit's promise has settled, regardless of when each unit's internal
asynchronous work settles. -/
theorem queue_fifo_serial (cmds : List QCmd) :
    ∃ n k,
      enqEvents (runQ initQ cmds).trace = (List.range n).map QEvent.enqueued ∧
      ((execEvents (runQ initQ cmds).trace = execShape k false ∧ k ≤ n) ∨
       (execEvents (runQ initQ cmds).trace = execShape k true ∧ k < n)) := by
  obtain ⟨henq, hrest⟩ := QInv_runQ initQ cmds QInv_initQ
  rcases hrest with ⟨_, _, _, hexec⟩ | ⟨k, _, _, hk, _, hexec⟩
  · exact ⟨(runQ initQ cmds).nextId, (runQ initQ cmds).nextId, henq,
      Or.inl ⟨hexec, Nat.le_refl _⟩⟩
  · exact ⟨(runQ initQ cmds).nextId, k, henq, Or.inr ⟨hexec, hk⟩⟩

end WorkflowSim
